import Mathlib

/-!
Verification development for the task-to-calendar auto-fit engine.

The engine lives in `src/lib/google/tasks.ts` (slot computation, greedy
placement) and `src/lib/timezone.ts` (wall-time coercion around DST gaps).
All JavaScript `Date` values are embedded as integers counting milliseconds
since the Unix epoch; calendar decomposition (`Date.UTC`, `getUTCFullYear`
and friends) is embedded with the standard proleptic-Gregorian civil-date
conversion that ECMAScript specifies.  The `"YYYY-MM-DD"` date strings and
`"HH:MM"` time strings that the source splits with `String.split` are
embedded as their numeric components (`CivilDate`, `TimeOfDay`); equality of
well-formed strings coincides with equality of the component structures.
-/

/-- A half-open interval of instants, `src` type `TimeSlot {start, end}`
(field `end` is renamed `stop` because `end` is a Lean keyword). -/
structure TimeSlot where
  start : ℤ
  stop : ℤ
  deriving DecidableEq, Repr

/-- The fields of a Google task used by the engine (`GoogleTask` in
`src/types`): `due` is `new Date(task.due).getTime()` for tasks with a due
date, `none` otherwise. Fields the engine never reads are omitted. -/
structure GoogleTask where
  id : String
  title : String
  due : Option ℤ
  hasSubtasks : Bool
  deriving DecidableEq, Repr

/-- A placement produced by the engine (`TaskPlacement`): `startTime` is the
instant of `slot.start.toISOString()` (the ISO string round-trips to the same
millisecond value via `new Date(...)`). -/
structure TaskPlacement where
  id : String
  taskId : String
  taskTitle : String
  startTime : ℤ
  duration : ℤ
  deriving DecidableEq, Repr

/-- An existing calendar event as read by `_getBlockedTimes`:
`event.start.dateTime` / `event.end.dateTime` parsed to instants, `none` when
absent (all-day events). -/
structure GoogleCalendarEvent where
  startDateTime : Option ℤ
  endDateTime : Option ℤ
  deriving DecidableEq, Repr

/-- Numeric components of an `"HH:MM"` time-of-day string, as produced by
`time.split(':').map(Number)` in `_parseTimeToDate`. -/
structure TimeOfDay where
  hh : ℤ
  mm : ℤ
  deriving DecidableEq, Repr

/-- Numeric components of a `"YYYY-MM-DD"` date string, as produced by
`date.split('-').map(Number)` in `_parseTimeToDate`. -/
structure CivilDate where
  year : ℤ
  month : ℤ
  day : ℤ
  deriving DecidableEq, Repr

/-- A working-hours range from user settings (`WorkingHours {start, end}`;
`end` renamed `stop`). -/
structure WorkingHours where
  start : TimeOfDay
  stop : TimeOfDay
  deriving DecidableEq, Repr

/-- The settings fields consumed by `autoFitTasks` (`UserSettings`). -/
structure UserSettings where
  defaultTaskDuration : ℤ
  minTimeBetweenTasks : ℤ
  workingHours : List WorkingHours
  ignoreContainerTasks : Bool
  slotMinTime : TimeOfDay
  slotMaxTime : TimeOfDay
  deriving DecidableEq, Repr

/-- The result record returned by `autoFitTasks` (`AutoFitResult`). -/
structure AutoFitResult where
  placements : List TaskPlacement
  unplacedTasks : List GoogleTask
  message : String
  deriving DecidableEq, Repr

/-- Modelled from the spec: the scheduling granularity constant
`TIME_SLOT_INTERVAL` is imported from `src/lib/constants.ts`, which is not
among the provided sources; the spec fixes the granularity at 15 minutes. -/
def TIME_SLOT_INTERVAL : ℤ := 15

/-- Days since the Unix epoch of a proleptic-Gregorian civil date, the
day-count underlying `Date.UTC(year, month - 1, day)` for month 1..12
(Howard Hinnant's `days_from_civil` algorithm, which ECMAScript's calendar
arithmetic agrees with). -/
def daysFromCivil (y m d : ℤ) : ℤ :=
  let yy := y - (if m ≤ 2 then 1 else 0)
  let era := Int.fdiv yy 400
  let yoe := yy - era * 400
  let mp := Int.emod (m + 9) 12
  let doy := Int.fdiv (153 * mp + 2) 5 + d - 1
  let doe := yoe * 365 + Int.fdiv yoe 4 - Int.fdiv yoe 100 + doy
  era * 146097 + doe - 719468

/-- Inverse of `daysFromCivil`: the civil date of a day number, the
decomposition behind `getUTCFullYear` / `getUTCMonth` / `getUTCDate`
(Hinnant's `civil_from_days`). -/
def civilFromDays (z : ℤ) : CivilDate :=
  let z' := z + 719468
  let era := Int.fdiv z' 146097
  let doe := z' - era * 146097
  let yoe := Int.fdiv (doe - Int.fdiv doe 1460 + Int.fdiv doe 36524 - Int.fdiv doe 146096) 365
  let y := yoe + era * 400
  let doy := doe - (365 * yoe + Int.fdiv yoe 4 - Int.fdiv yoe 100)
  let mp := Int.fdiv (5 * doy + 2) 153
  let d := doy - Int.fdiv (153 * mp + 2) 5 + 1
  let m := mp + (if mp < 10 then 3 else -9)
  ⟨y + (if m ≤ 2 then 1 else 0), m, d⟩

/-- Embedding of `Date.UTC(year, month - 1, day, hours, minutes, 0, 0)`:
milliseconds since the epoch of a civil date plus a time of day. -/
def dateUTC (date : CivilDate) (time : TimeOfDay) : ℤ :=
  daysFromCivil date.year date.month date.day * 86400000
    + time.hh * 3600000 + time.mm * 60000

/-- Embedding of `_parseTimeToDate` (`tasks.ts`): parse an `"HH:MM"` time on
a `"YYYY-MM-DD"` date into an instant, adjusted by the user's timezone
offset in minutes (`new Date(utcTime + timezoneOffset * 60 * 1000)`). -/
def _parseTimeToDate (date : CivilDate) (time : TimeOfDay) (timezoneOffset : ℤ) : ℤ :=
  dateUTC date time + timezoneOffset * 60000

/-- Embedding of `_roundUpToNextSlot` (`tasks.ts`): round an instant up to
the next `TIME_SLOT_INTERVAL`-minute boundary.  `getUTCMinutes` /
`getUTCSeconds` / `getUTCMilliseconds` are the floor-based field extractions;
`setUTCMinutes(m, 0, 0)` rebuilds the instant from the hour floor. -/
def _roundUpToNextSlot (time : ℤ) : ℤ :=
  let minutes := Int.emod (Int.fdiv time 60000) 60
  let seconds := Int.emod (Int.fdiv time 1000) 60
  let millis := Int.emod time 1000
  let remainder := Int.emod minutes TIME_SLOT_INTERVAL
  if remainder = 0 ∧ seconds = 0 ∧ millis = 0 then
    time
  else
    (time - (minutes * 60000 + seconds * 1000 + millis))
      + (minutes + (TIME_SLOT_INTERVAL - remainder)) * 60000

/-- One pass of the body of `_subtractTimeFromSlots` for a single slot:
the in-place branch structure (skip / remove / split / truncate an edge)
returns the 0, 1 or 2 slots that replace `slot`. -/
def subtractOne (blockStart blockEnd : ℤ) (slot : TimeSlot) : List TimeSlot :=
  if blockEnd ≤ slot.start ∨ blockStart ≥ slot.stop then
    [slot]
  else if blockStart ≤ slot.start ∧ blockEnd ≥ slot.stop then
    []
  else if blockStart > slot.start ∧ blockEnd < slot.stop then
    [⟨slot.start, blockStart⟩, ⟨blockEnd, slot.stop⟩]
  else if blockStart ≤ slot.start then
    [⟨blockEnd, slot.stop⟩]
  else
    [⟨slot.start, blockStart⟩]

/-- Embedding of `_subtractTimeFromSlots` (`tasks.ts`).  The source iterates
the array downward, replacing `slots[i]` in place (`splice(i, 1)` removes it,
`splice(i + 1, 0, newSlot)` inserts the second half of a split after it), so
each original slot is rewritten independently and the replacements stay in
position: the loop is the concatenation of `subtractOne` over the list. -/
def _subtractTimeFromSlots : List TimeSlot → ℤ → ℤ → List TimeSlot
  | [], _, _ => []
  | s :: rest, blockStart, blockEnd =>
      subtractOne blockStart blockEnd s ++ _subtractTimeFromSlots rest blockStart blockEnd

/-- Embedding of `_getBlockedTimes` (`tasks.ts`): events with both a start
and an end instant, then existing placements, each expanded by `minGap`
minutes on both ends. -/
def _getBlockedTimes (events : List GoogleCalendarEvent)
    (placements : List TaskPlacement) (minGap : ℤ) : List TimeSlot :=
  (events.filterMap fun event =>
    match event.startDateTime, event.endDateTime with
    | some s, some e => some ⟨s - minGap * 60000, e + minGap * 60000⟩
    | _, _ => none)
  ++ placements.map fun p =>
      ⟨p.startTime - minGap * 60000,
       p.startTime + p.duration * 60000 + minGap * 60000⟩

/-- Embedding of `_findFirstAvailableSlot` (`tasks.ts`): the first slot (in
list order) at least `durationMinutes` wide, returned as a fresh slot of
exactly that duration at the found slot's start. -/
def _findFirstAvailableSlot : List TimeSlot → ℤ → Option TimeSlot
  | [], _ => none
  | s :: rest, durationMinutes =>
      if s.stop - s.start ≥ durationMinutes * 60000 then
        some ⟨s.start, s.start + durationMinutes * 60000⟩
      else
        _findFirstAvailableSlot rest durationMinutes

/-- Embedding of `_removeSlotTime` (`tasks.ts`): subtract the placed
interval plus its trailing gap from the slot list. -/
def _removeSlotTime (slots : List TimeSlot) (start durationMinutes gapMinutes : ℤ) :
    List TimeSlot :=
  _subtractTimeFromSlots slots start (start + (durationMinutes + gapMinutes) * 60000)

/-- The "today" computation inlined in `_calculateAvailableSlots`:
`userNow = new Date(now - timezoneOffset * 60000)` decomposed with the
`getUTC*` accessors into a `"YYYY-MM-DD"` string, embedded as its civil
date. -/
def todayInZone (now timezoneOffset : ℤ) : CivilDate :=
  civilFromDays (Int.fdiv (now - timezoneOffset * 60000) 86400000)

/-- The first stage of `_calculateAvailableSlots`: one candidate slot per
working-hours range, clamped to the calendar's visible range, dropped when
the clamped range is empty. -/
def workingHourSlots (settings : UserSettings) (date : CivilDate)
    (timezoneOffset : ℤ) : List TimeSlot :=
  let calendarStart := _parseTimeToDate date settings.slotMinTime timezoneOffset
  let calendarEnd := _parseTimeToDate date settings.slotMaxTime timezoneOffset
  settings.workingHours.filterMap fun hours =>
    let start := _parseTimeToDate date hours.start timezoneOffset
    let stop := _parseTimeToDate date hours.stop timezoneOffset
    let start := if start < calendarStart then calendarStart else start
    let stop := if stop > calendarEnd then calendarEnd else stop
    if start < stop then some ⟨start, stop⟩ else none

/-- Embedding of `_calculateAvailableSlots` (`tasks.ts`).  `now` is the
single `new Date()` read, passed explicitly. -/
def _calculateAvailableSlots (events : List GoogleCalendarEvent)
    (placements : List TaskPlacement) (settings : UserSettings)
    (date : CivilDate) (timezoneOffset : ℤ) (now : ℤ) : List TimeSlot :=
  (((_getBlockedTimes events placements settings.minTimeBetweenTasks).foldl
      (fun sl b => _subtractTimeFromSlots sl b.start b.stop)
      (if date = todayInZone now timezoneOffset then
        _subtractTimeFromSlots (workingHourSlots settings date timezoneOffset)
          (_parseTimeToDate date ⟨0, 0⟩ timezoneOffset) (_roundUpToNextSlot now)
      else workingHourSlots settings date timezoneOffset))).filter
    fun slot => slot.stop > slot.start

/-- The comparator passed to `Array.prototype.sort` in `_sortTasksByPriority`:
tasks with due dates first, then by due instant, 0 otherwise. -/
def priorityCompare (a b : GoogleTask) : ℤ :=
  match a.due, b.due with
  | some _, none => -1
  | none, some _ => 1
  | some x, some y => x - y
  | none, none => 0

/-- Stable insertion of a task into an already-sorted list: the task goes in
front of the first element it compares `≤ 0` against. -/
def insertByPriority (a : GoogleTask) : List GoogleTask → List GoogleTask
  | [] => [a]
  | b :: bs =>
      if priorityCompare a b ≤ 0 then a :: b :: bs else b :: insertByPriority a bs

/-- Embedding of `_sortTasksByPriority` (`tasks.ts`).
`Array.prototype.sort` is guaranteed stable (ES2019), so the copy-and-sort
`[...tasks].sort(comparator)` is embedded as a stable insertion sort with the
source comparator. -/
def _sortTasksByPriority (tasks : List GoogleTask) : List GoogleTask :=
  tasks.foldr insertByPriority []

/-- Embedding of `_generateResultMessage` (`tasks.ts`). -/
def _generateResultMessage (placements : List TaskPlacement)
    (unplaced : List GoogleTask) : String :=
  let p := placements.length
  let u := unplaced.length
  if u = 0 then
    s!"Successfully placed {p} task(s)."
  else if p = 0 then
    "Could not place any tasks. No available time slots."
  else
    s!"Placed {p} task(s). {u} task(s) could not fit."

/-- The mutable state of the placement loop in `autoFitTasks`:
`availableSlots`, the `placements` and `unplacedTasks` accumulators, the
`placedTaskIds` set (as a list), and a counter of how many placement ids
have been generated. -/
structure FitState where
  availableSlots : List TimeSlot
  placements : List TaskPlacement
  unplacedTasks : List GoogleTask
  placedTaskIds : List String
  idDraws : ℕ
  deriving Repr

/-- One iteration of the `for (const task of sortedTasks)` loop in
`autoFitTasks`.  The placement id is
`` `${task.id}-${Date.now()}-${Math.random().toString(36).substr(2, 9)}` ``;
the `Date.now()`/`Math.random()` draw for the `idDraws`-th placement is
abstracted as the environment-supplied string `idGen idDraws`. -/
def fitStep (settings : UserSettings) (idGen : ℕ → String)
    (st : FitState) (task : GoogleTask) : FitState :=
  if st.placedTaskIds.contains task.id then
    st
  else
    match _findFirstAvailableSlot st.availableSlots settings.defaultTaskDuration with
    | some slot =>
        let placement : TaskPlacement :=
          { id := task.id ++ "-" ++ idGen st.idDraws
            taskId := task.id
            taskTitle := task.title
            startTime := slot.start
            duration := settings.defaultTaskDuration }
        { availableSlots :=
            _removeSlotTime st.availableSlots slot.start
              settings.defaultTaskDuration settings.minTimeBetweenTasks
          placements := st.placements ++ [placement]
          unplacedTasks := st.unplacedTasks
          placedTaskIds := st.placedTaskIds ++ [task.id]
          idDraws := st.idDraws + 1 }
    | none =>
        { st with unplacedTasks := st.unplacedTasks ++ [task] }

/-- Embedding of `autoFitTasks` (`tasks.ts`).  `now` is the instant read by
`new Date()` inside `_calculateAvailableSlots`; `idGen` abstracts the
`Date.now()`/`Math.random()` draws used for placement ids. -/
def autoFitTasks (tasks : List GoogleTask) (existingEvents : List GoogleCalendarEvent)
    (existingPlacements : List TaskPlacement) (settings : UserSettings)
    (date : CivilDate) (timezoneOffset : ℤ) (now : ℤ) (idGen : ℕ → String) :
    AutoFitResult :=
  let availableSlots :=
    _calculateAvailableSlots existingEvents existingPlacements settings date timezoneOffset now
  let filteredTasks :=
    if settings.ignoreContainerTasks then tasks.filter (fun t => !t.hasSubtasks) else tasks
  let sortedTasks := _sortTasksByPriority filteredTasks
  let final := sortedTasks.foldl (fitStep settings idGen) ⟨availableSlots, [], [], [], 0⟩
  { placements := final.placements
    unplacedTasks := final.unplacedTasks
    message := _generateResultMessage final.placements final.unplacedTasks }

/-- Search cap of the DST-gap coercion in `src/lib/timezone.ts`. -/
def MAX_DST_COERCE_MINUTES : ℕ := 180

/-- The `for (let minutes = 1; minutes <= MAX_DST_COERCE_MINUTES; ...)` loop
of `coerceDateTimeToValidWallTime`: try `base.plus({minutes})` for
`remaining` successive minute values starting at `m`, returning the first
valid wall time. -/
def firstValidFrom (isValid : ℤ → Bool) (base : ℤ) : ℕ → ℕ → Option ℤ
  | _, 0 => none
  | m, remaining + 1 =>
      if isValid (base + (m : ℤ)) then some (base + (m : ℤ))
      else firstValidFrom isValid base (m + 1) remaining

/-- Embedding of `coerceDateTimeToValidWallTime` (`timezone.ts`).  A luxon
`DateTime` is represented by the minute count of its wall time; the zone is
abstracted as the validity predicate `isValid` (whether a wall minute exists
in the zone).  In the source, `dt` and the re-parsed `base` denote the same
wall time, so a single argument stands for both; the thrown `Error` is the
`InvalidWallTime` failure. -/
def coerceDateTimeToValidWallTime (isValid : ℤ → Bool) (dt : ℤ) : Except String ℤ :=
  if isValid dt then
    Except.ok dt
  else
    match firstValidFrom isValid dt 1 MAX_DST_COERCE_MINUTES with
    | some candidate => Except.ok candidate
    | none => Except.error "InvalidWallTime"

/-- Two half-open interval ranges `[a, b)` and `[c, d)` share no instant. -/
def intervalsDisjoint (a b c d : ℤ) : Prop :=
  ∀ x : ℤ, a ≤ x → x < b → c ≤ x → x < d → False

/-- A slot list is well-formed when it is ordered by start time with no
overlap between consecutive slots and every slot has positive width. -/
def slotsWellFormed (slots : List TimeSlot) : Prop :=
  List.Pairwise (fun a b => a.stop ≤ b.start) slots ∧ ∀ s ∈ slots, s.start < s.stop

/-- The minimum-gap reading of the no-overlap claim: any two distinct
placements are separated by at least `gapMinutes` on whichever side they
ordered themselves. -/
def minGapRespected (durationMinutes gapMinutes : ℤ) (l : List TaskPlacement) : Prop :=
  ∀ p ∈ l, ∀ q ∈ l, p ≠ q →
    p.startTime + durationMinutes * 60000 + gapMinutes * 60000 ≤ q.startTime
    ∨ q.startTime + durationMinutes * 60000 + gapMinutes * 60000 ≤ p.startTime

/-- Projection that blanks the nondeterministically generated placement id,
leaving the deterministic fields. -/
def erasePlacementId (p : TaskPlacement) : TaskPlacement :=
  { p with id := "" }

/-- Slot containment. -/
def slotWithin (t s : TimeSlot) : Prop :=
  s.start ≤ t.start ∧ t.stop ≤ s.stop

/-- The ordering the comparator sorts by: dated tasks precede undated ones,
and dated tasks are ordered by due instant. -/
def priorityRel (a b : GoogleTask) : Prop :=
  match a.due, b.due with
  | some x, some y => x ≤ y
  | some _, none => True
  | none, some _ => False
  | none, none => True

/-- Invariant of the placement loop: available slots avoid all blocked
times and all already-placed tasks (with trailing gap); placements placed
later avoid earlier placements extended by the trailing gap; and placements
avoid all blocked times. -/
def placementInv (settings : UserSettings) (blocked : List TimeSlot) (st : FitState) : Prop :=
  (∀ s ∈ st.availableSlots, ∀ b ∈ blocked,
      intervalsDisjoint s.start s.stop b.start b.stop)
  ∧ (∀ s ∈ st.availableSlots, ∀ p ∈ st.placements,
      intervalsDisjoint s.start s.stop p.startTime
        (p.startTime + p.duration * 60000 + settings.minTimeBetweenTasks * 60000))
  ∧ List.Pairwise (fun p q =>
      intervalsDisjoint q.startTime (q.startTime + q.duration * 60000)
        p.startTime (p.startTime + p.duration * 60000 + settings.minTimeBetweenTasks * 60000))
      st.placements
  ∧ (∀ p ∈ st.placements, ∀ b ∈ blocked,
      intervalsDisjoint p.startTime (p.startTime + p.duration * 60000) b.start b.stop)

/-- Invariant of the placement loop for duplicate handling: the
`placedTaskIds` set mirrors the task ids of the placements in order, those
ids are distinct, no unplaced task's id was ever placed, and once a task
failed to place the (unchanged) slots have no room for the fixed duration. -/
def dedupInv (settings : UserSettings) (st : FitState) : Prop :=
  st.placedTaskIds = st.placements.map TaskPlacement.taskId
  ∧ (st.placements.map TaskPlacement.taskId).Nodup
  ∧ (∀ t ∈ st.unplacedTasks, t.id ∉ st.placements.map TaskPlacement.taskId)
  ∧ (st.unplacedTasks ≠ [] →
      _findFirstAvailableSlot st.availableSlots settings.defaultTaskDuration = none)

/-- The loop states of two runs that differ only in the id-generation
environment agree everywhere except inside the generated ids. -/
def erasedEq (st1 st2 : FitState) : Prop :=
  st1.availableSlots = st2.availableSlots
  ∧ st1.placements.map erasePlacementId = st2.placements.map erasePlacementId
  ∧ st1.unplacedTasks = st2.unplacedTasks
  ∧ st1.placedTaskIds = st2.placedTaskIds

/-- A task with the given id as both id and title, no due date, no
subtasks; used by the concrete-scenario theorems. -/
def mkTask (i : String) : GoogleTask :=
  ⟨i, i, none, false⟩

/-- The date used by the concrete scenarios. -/
def exDate : CivilDate :=
  ⟨2025, 6, 10⟩

/-- A current instant falling on 2025-06-09, so `exDate` is not "today". -/
def exNowOtherDay : ℤ :=
  _parseTimeToDate ⟨2025, 6, 9⟩ ⟨12, 0⟩ 0

/-- A current instant at 14:10 on `exDate` itself. -/
def exNowToday : ℤ :=
  _parseTimeToDate ⟨2025, 6, 10⟩ ⟨14, 10⟩ 0

/-- A sample id-generation environment. -/
def exIdGen : ℕ → String :=
  fun n => toString n

/-- Settings of the spec's concrete scenario: working hours 10:00-12:45,
visible range 06:00-22:00, 30-minute tasks, 15-minute gap. -/
def exSettingsScenario : UserSettings :=
  ⟨30, 15, [⟨⟨10, 0⟩, ⟨12, 45⟩⟩], false, ⟨6, 0⟩, ⟨22, 0⟩⟩

/-- Ten tasks with no due dates. -/
def exTasksTen : List GoogleTask :=
  [mkTask "t1", mkTask "t2", mkTask "t3", mkTask "t4", mkTask "t5",
   mkTask "t6", mkTask "t7", mkTask "t8", mkTask "t9", mkTask "t10"]

/-- The engine's output on the spec's concrete scenario (date not today). -/
def exResultScenario : AutoFitResult :=
  autoFitTasks exTasksTen [] [] exSettingsScenario exDate 0 exNowOtherDay exIdGen

/-- Settings with a later working-hours range listed before an earlier one:
10:00-10:45 first, 9:30-10:00 second. -/
def exSettingsBackward : UserSettings :=
  ⟨30, 15, [⟨⟨10, 0⟩, ⟨10, 45⟩⟩, ⟨⟨9, 30⟩, ⟨10, 0⟩⟩], false, ⟨6, 0⟩, ⟨22, 0⟩⟩

/-- The engine's output with backward-listed working hours and two tasks. -/
def exResultBackward : AutoFitResult :=
  autoFitTasks [mkTask "a", mkTask "b"] [] [] exSettingsBackward exDate 0 exNowOtherDay exIdGen

/-- Settings whose `defaultTaskDuration` is the non-positive value 0. -/
def exSettingsZeroDuration : UserSettings :=
  ⟨0, 15, [⟨⟨10, 0⟩, ⟨11, 0⟩⟩], false, ⟨6, 0⟩, ⟨22, 0⟩⟩

/-- The engine's output on a malformed (zero-duration) settings record. -/
def exResultZeroDuration : AutoFitResult :=
  autoFitTasks [mkTask "t1"] [] [] exSettingsZeroDuration exDate 0 exNowOtherDay exIdGen

/-- Settings with a single one-hour working range, used for the
determinism scenario. -/
def exSettingsOneHour : UserSettings :=
  ⟨30, 15, [⟨⟨10, 0⟩, ⟨11, 0⟩⟩], false, ⟨6, 0⟩, ⟨22, 0⟩⟩

/-- Settings with a wide working range 10:00-22:00, used for the
past-time-exclusion scenario. -/
def exSettingsWide : UserSettings :=
  ⟨30, 15, [⟨⟨10, 0⟩, ⟨22, 0⟩⟩], false, ⟨6, 0⟩, ⟨22, 0⟩⟩

/-- A zone-validity predicate whose wall minutes below 123 do not exist,
exercising the DST-gap search. -/
def gapValidity : ℤ → Bool :=
  fun x => decide (123 <= x)

/-- Characterization of the slots a single subtraction pass can produce: the
untouched slot (when the block misses it), the left remainder ending at
`blockStart`, or the right remainder starting at `blockEnd`. -/
theorem mem_subtractOne_bounds {blockStart blockEnd : ℤ} {s t : TimeSlot}
    (ht : t ∈ subtractOne blockStart blockEnd s) :
    (t = s ∧ (blockEnd ≤ s.start ∨ blockStart ≥ s.stop))
    ∨ (t.start = s.start ∧ t.stop = blockStart ∧ s.start < blockStart ∧ blockStart < s.stop)
    ∨ (t.start = blockEnd ∧ t.stop = s.stop ∧ s.start < blockEnd ∧ blockEnd < s.stop) := by
  unfold subtractOne at ht
  split_ifs at ht with h1 h2 h3 h4
  · simp only [List.mem_singleton] at ht
    exact Or.inl ⟨ht, h1⟩
  · simp at ht
  · push_neg at h1
    simp only [List.mem_cons, List.mem_singleton, List.not_mem_nil, or_false] at ht
    rcases ht with ht | ht <;> subst ht
    · exact Or.inr (Or.inl ⟨rfl, rfl, h3.1, h1.2⟩)
    · exact Or.inr (Or.inr ⟨rfl, rfl, h1.1, h3.2⟩)
  · push_neg at h1 h2
    simp only [List.mem_singleton] at ht
    subst ht
    exact Or.inr (Or.inr ⟨rfl, rfl, h1.1, h2 h4⟩)
  · push_neg at h1 h4
    simp only [List.mem_singleton] at ht
    subst ht
    exact Or.inr (Or.inl ⟨rfl, rfl, h4, h1.2⟩)

/-- Every slot produced by one subtraction pass stays inside the slot it
came from. -/
theorem mem_subtractOne_subset {blockStart blockEnd : ℤ} {s t : TimeSlot}
    (ht : t ∈ subtractOne blockStart blockEnd s) :
    s.start ≤ t.start ∧ t.stop ≤ s.stop := by
  rcases mem_subtractOne_bounds ht with ⟨rfl, h⟩ | ⟨h1, h2, h3, h4⟩ | ⟨h1, h2, h3, h4⟩ <;>
    omega

/-- Every slot produced by one subtraction pass is disjoint from the
subtracted block. -/
theorem mem_subtractOne_disjoint {blockStart blockEnd : ℤ} {s t : TimeSlot}
    (ht : t ∈ subtractOne blockStart blockEnd s) :
    intervalsDisjoint t.start t.stop blockStart blockEnd := by
  intro x hx1 hx2 hx3 hx4
  rcases mem_subtractOne_bounds ht with ⟨rfl, h⟩ | ⟨h1, h2, h3, h4⟩ | ⟨h1, h2, h3, h4⟩ <;>
    omega

/-- Subtracting the same block from a slot it already avoids leaves the slot
unchanged. -/
theorem subtractOne_fixed {blockStart blockEnd : ℤ} {s t : TimeSlot}
    (ht : t ∈ subtractOne blockStart blockEnd s) :
    subtractOne blockStart blockEnd t = [t] := by
  have hcond : blockEnd ≤ t.start ∨ blockStart ≥ t.stop := by
    rcases mem_subtractOne_bounds ht with ⟨rfl, h⟩ | ⟨h1, h2, h3, h4⟩ | ⟨h1, h2, h3, h4⟩ <;>
      omega
  unfold subtractOne
  rw [if_pos hcond]

/-- One subtraction pass preserves positive slot width. -/
theorem mem_subtractOne_pos {blockStart blockEnd : ℤ} {s t : TimeSlot}
    (hs : s.start < s.stop) (ht : t ∈ subtractOne blockStart blockEnd s) :
    t.start < t.stop := by
  rcases mem_subtractOne_bounds ht with ⟨rfl, h⟩ | ⟨h1, h2, h3, h4⟩ | ⟨h1, h2, h3, h4⟩ <;>
    omega

/-- Membership in a subtraction result factors through a source slot. -/
theorem mem_subtract {blockStart blockEnd : ℤ} {slots : List TimeSlot} {t : TimeSlot}
    (ht : t ∈ _subtractTimeFromSlots slots blockStart blockEnd) :
    ∃ s ∈ slots, t ∈ subtractOne blockStart blockEnd s := by
  induction slots with
  | nil => simp [_subtractTimeFromSlots] at ht
  | cons s rest ih =>
      simp only [_subtractTimeFromSlots, List.mem_append] at ht
      rcases ht with ht | ht
      · exact ⟨s, List.mem_cons_self _ _, ht⟩
      · obtain ⟨u, hu, htu⟩ := ih ht
        exact ⟨u, List.mem_cons_of_mem _ hu, htu⟩

/-- Subtraction distributes over list concatenation. -/
theorem subtract_append (l1 l2 : List TimeSlot) (blockStart blockEnd : ℤ) :
    _subtractTimeFromSlots (l1 ++ l2) blockStart blockEnd
      = _subtractTimeFromSlots l1 blockStart blockEnd
        ++ _subtractTimeFromSlots l2 blockStart blockEnd := by
  induction l1 with
  | nil => simp [_subtractTimeFromSlots]
  | cons s rest ih => simp [_subtractTimeFromSlots, ih]

/-- Subtraction is the identity on a list of slots it leaves fixed
slot-by-slot. -/
theorem subtract_of_fixed {blockStart blockEnd : ℤ} {l : List TimeSlot}
    (h : ∀ t ∈ l, subtractOne blockStart blockEnd t = [t]) :
    _subtractTimeFromSlots l blockStart blockEnd = l := by
  induction l with
  | nil => rfl
  | cons s rest ih =>
      simp only [_subtractTimeFromSlots]
      rw [h s (List.mem_cons_self _ _), ih fun t htl => h t (List.mem_cons_of_mem _ htl)]
      rfl

/-- Applying the same subtraction twice equals applying it once. -/
theorem subtract_idem (slots : List TimeSlot) (blockStart blockEnd : ℤ) :
    _subtractTimeFromSlots (_subtractTimeFromSlots slots blockStart blockEnd)
        blockStart blockEnd
      = _subtractTimeFromSlots slots blockStart blockEnd := by
  induction slots with
  | nil => rfl
  | cons s rest ih =>
      simp only [_subtractTimeFromSlots]
      rw [subtract_append, ih, subtract_of_fixed fun t htl => subtractOne_fixed htl]

/-- The slots produced from one slot by a forward-ordered block are
themselves ordered and non-overlapping. -/
theorem pairwise_subtractOne {blockStart blockEnd : ℤ} (hbe : blockStart ≤ blockEnd)
    (s : TimeSlot) :
    List.Pairwise (fun a b : TimeSlot => a.stop ≤ b.start)
      (subtractOne blockStart blockEnd s) := by
  unfold subtractOne
  split_ifs with h1 h2 h3 h4 <;> simp <;> try omega

/-- Disjointness from a fixed range is inherited by contained slots. -/
theorem slotWithin_disjoint {t s : TimeSlot} {c d : ℤ} (hw : slotWithin t s)
    (hd : intervalsDisjoint s.start s.stop c d) :
    intervalsDisjoint t.start t.stop c d := by
  intro x hx1 hx2 hx3 hx4
  exact hd x (by exact le_trans hw.1 hx1) (lt_of_lt_of_le hx2 hw.2) hx3 hx4

/-- Subtraction preserves the slot-list invariant when the subtracted block
is forward-ordered. -/
theorem subtract_wellFormed {blockStart blockEnd : ℤ} (hbe : blockStart ≤ blockEnd)
    {slots : List TimeSlot} (h : slotsWellFormed slots) :
    slotsWellFormed (_subtractTimeFromSlots slots blockStart blockEnd) := by
  obtain ⟨hpw, hpos⟩ := h
  induction slots with
  | nil => exact ⟨List.Pairwise.nil, by simp [_subtractTimeFromSlots]⟩
  | cons s rest ih =>
      rw [List.pairwise_cons] at hpw
      obtain ⟨hrel, hpwrest⟩ := hpw
      have hposrest : ∀ u ∈ rest, u.start < u.stop :=
        fun u hu => hpos u (List.mem_cons_of_mem _ hu)
      obtain ⟨ihpw, ihpos⟩ := ih hpwrest hposrest
      constructor
      · simp only [_subtractTimeFromSlots]
        rw [List.pairwise_append]
        refine ⟨pairwise_subtractOne hbe s, ihpw, ?_⟩
        intro a ha b hb
        obtain ⟨u, hu, hbu⟩ := mem_subtract hb
        have h1 := (mem_subtractOne_subset ha).2
        have h2 := (mem_subtractOne_subset hbu).1
        have h3 := hrel u hu
        omega
      · intro t htmem
        simp only [_subtractTimeFromSlots, List.mem_append] at htmem
        rcases htmem with htmem | htmem
        · exact mem_subtractOne_pos (hpos s (List.mem_cons_self _ _)) htmem
        · exact ihpos t htmem

/-- A slot surviving a fold of subtractions lies inside one of the original
slots. -/
theorem mem_foldl_subtract {blocked : List TimeSlot} {slots0 : List TimeSlot} {t : TimeSlot}
    (ht : t ∈ blocked.foldl
      (fun sl b => _subtractTimeFromSlots sl b.start b.stop) slots0) :
    ∃ s ∈ slots0, slotWithin t s := by
  induction blocked generalizing slots0 with
  | nil => exact ⟨t, ht, le_refl _, le_refl _⟩
  | cons b bl ih =>
      simp only [List.foldl_cons] at ht
      obtain ⟨u, hu, htu⟩ := ih ht
      obtain ⟨s, hs, hus⟩ := mem_subtract hu
      have hsub := mem_subtractOne_subset hus
      exact ⟨s, hs, by exact le_trans hsub.1 htu.1, le_trans htu.2 hsub.2⟩

/-- Every slot surviving a fold of subtractions is disjoint from every
subtracted block. -/
theorem mem_foldl_subtract_disjoint {blocked : List TimeSlot} {slots0 : List TimeSlot}
    {t : TimeSlot} {b : TimeSlot} (hb : b ∈ blocked)
    (ht : t ∈ blocked.foldl
      (fun sl b => _subtractTimeFromSlots sl b.start b.stop) slots0) :
    intervalsDisjoint t.start t.stop b.start b.stop := by
  induction blocked generalizing slots0 with
  | nil => simp at hb
  | cons b' bl ih =>
      simp only [List.foldl_cons] at ht
      rcases List.mem_cons.mp hb with rfl | hb'
      · obtain ⟨u, hu, htu⟩ := mem_foldl_subtract ht
        obtain ⟨s, _, hus⟩ := mem_subtract hu
        exact slotWithin_disjoint htu (mem_subtractOne_disjoint hus)
      · exact ih hb' ht

/-- A non-positive comparator value means the first task may precede the
second. -/
theorem priorityRel_of_compare_le {a b : GoogleTask} (h : priorityCompare a b ≤ 0) :
    priorityRel a b := by
  unfold priorityCompare at h
  unfold priorityRel
  cases ha : a.due <;> cases hb : b.due <;> simp_all <;> omega

/-- A positive comparator value means the second task may precede the
first. -/
theorem priorityRel_of_compare_pos {a b : GoogleTask} (h : 0 < priorityCompare a b) :
    priorityRel b a := by
  unfold priorityCompare at h
  unfold priorityRel
  cases ha : a.due <;> cases hb : b.due <;> simp_all <;> omega

/-- The priority ordering is transitive. -/
theorem priorityRel_trans {a b c : GoogleTask} (hab : priorityRel a b)
    (hbc : priorityRel b c) : priorityRel a c := by
  cases ha : a.due <;> cases hb : b.due <;> cases hc : c.due <;>
    simp_all [priorityRel] <;> omega

/-- Members of an insertion are the inserted task or members of the original
list. -/
theorem mem_insertByPriority {x a : GoogleTask} {l : List GoogleTask}
    (hx : x ∈ insertByPriority a l) : x = a ∨ x ∈ l := by
  induction l with
  | nil => simp [insertByPriority] at hx; exact Or.inl hx
  | cons b bs ih =>
      unfold insertByPriority at hx
      split_ifs at hx with hc
      · rcases List.mem_cons.mp hx with h | h
        · exact Or.inl h
        · exact Or.inr h
      · rcases List.mem_cons.mp hx with h | h
        · exact Or.inr (h ▸ List.mem_cons_self _ _)
        · rcases ih h with h' | h'
          · exact Or.inl h'
          · exact Or.inr (List.mem_cons_of_mem _ h')

/-- Insertion preserves sortedness by the priority ordering. -/
theorem pairwise_insertByPriority {a : GoogleTask} {l : List GoogleTask}
    (h : List.Pairwise priorityRel l) :
    List.Pairwise priorityRel (insertByPriority a l) := by
  induction l with
  | nil => simp [insertByPriority]
  | cons b bs ih =>
      rw [List.pairwise_cons] at h
      obtain ⟨hb, hbs⟩ := h
      unfold insertByPriority
      split_ifs with hc
      · rw [List.pairwise_cons]
        refine ⟨?_, List.pairwise_cons.mpr ⟨hb, hbs⟩⟩
        intro x hx
        rcases List.mem_cons.mp hx with rfl | hx
        · exact priorityRel_of_compare_le hc
        · exact priorityRel_trans (priorityRel_of_compare_le hc) (hb x hx)
      · rw [List.pairwise_cons]
        refine ⟨?_, ih hbs⟩
        intro x hx
        rcases mem_insertByPriority hx with rfl | hx
        · exact priorityRel_of_compare_pos (by omega)
        · exact hb x hx

/-- The task sort produces a list sorted by the priority ordering. -/
theorem pairwise_sortTasksByPriority (tasks : List GoogleTask) :
    List.Pairwise priorityRel (_sortTasksByPriority tasks) := by
  unfold _sortTasksByPriority
  induction tasks with
  | nil => simp
  | cons t ts ih => exact pairwise_insertByPriority ih

/-- Inserting an undated task puts it in front of the undated tasks already
present: the comparator skips over every dated task and stops at the first
undated one. -/
theorem filter_insertByPriority_none {a : GoogleTask} (ha : a.due = none)
    (l : List GoogleTask) :
    (insertByPriority a l).filter (fun t => t.due.isNone)
      = a :: l.filter (fun t => t.due.isNone) := by
  induction l with
  | nil => simp [insertByPriority, ha]
  | cons b bs ih =>
      unfold insertByPriority
      split_ifs with hc
      · simp [ha]
      · cases hb : b.due with
        | none => exfalso; unfold priorityCompare at hc; rw [ha, hb] at hc; simp at hc
        | some y => simp [hb, ih]

/-- Inserting a dated task leaves the undated subsequence unchanged. -/
theorem filter_insertByPriority_some {a : GoogleTask} {x : ℤ} (ha : a.due = some x)
    (l : List GoogleTask) :
    (insertByPriority a l).filter (fun t => t.due.isNone)
      = l.filter (fun t => t.due.isNone) := by
  induction l with
  | nil => simp [insertByPriority, ha]
  | cons b bs ih =>
      unfold insertByPriority
      split_ifs with hc
      · simp [ha]
      · cases hb : b.due with
        | none => simp [hb, ih]
        | some y => simp [hb, ih]

/-- The sort keeps the undated tasks in their input order. -/
theorem sortTasks_filter_undated (tasks : List GoogleTask) :
    (_sortTasksByPriority tasks).filter (fun t => t.due.isNone)
      = tasks.filter (fun t => t.due.isNone) := by
  unfold _sortTasksByPriority
  induction tasks with
  | nil => simp
  | cons t ts ih =>
      rw [List.foldr_cons]
      cases ht : t.due with
      | none =>
          rw [filter_insertByPriority_none ht]
          simp [ht, ih]
      | some x =>
          rw [filter_insertByPriority_some ht]
          simp [ht, ih]

/-- A successful slot search returns the start of a member slot that is wide
enough, trimmed to the requested duration. -/
theorem findFirst_some {slots : List TimeSlot} {durationMinutes : ℤ} {r : TimeSlot}
    (h : _findFirstAvailableSlot slots durationMinutes = some r) :
    ∃ s ∈ slots, r.start = s.start ∧ r.stop = s.start + durationMinutes * 60000
      ∧ durationMinutes * 60000 ≤ s.stop - s.start := by
  induction slots with
  | nil => simp [_findFirstAvailableSlot] at h
  | cons s rest ih =>
      unfold _findFirstAvailableSlot at h
      split_ifs at h with hw
      · obtain rfl := Option.some_injective _ h.symm
        exact ⟨s, List.mem_cons_self _ _, rfl, rfl, hw⟩
      · obtain ⟨u, hu, hru⟩ := ih h
        exact ⟨u, List.mem_cons_of_mem _ hu, hru⟩

/-- The slot search fails exactly when no slot is wide enough. -/
theorem findFirst_none_iff {slots : List TimeSlot} {durationMinutes : ℤ} :
    _findFirstAvailableSlot slots durationMinutes = none
      ↔ ∀ s ∈ slots, s.stop - s.start < durationMinutes * 60000 := by
  induction slots with
  | nil => simp [_findFirstAvailableSlot]
  | cons s rest ih =>
      unfold _findFirstAvailableSlot
      split_ifs with hw
      · constructor
        · intro h; exact absurd h (by simp)
        · intro hall
          exact absurd (hall s (List.mem_cons_self _ _)) (by omega)
      · rw [ih]
        constructor
        · intro hall u hu
          rcases List.mem_cons.mp hu with rfl | hu
          · omega
          · exact hall u hu
        · intro hall u hu
          exact hall u (List.mem_cons_of_mem _ hu)

/-- Properties preserved by each placement step hold after the whole
placement loop. -/
theorem foldl_fitStep_inv (settings : UserSettings) (idGen : ℕ → String)
    (P : FitState → Prop)
    (hstep : ∀ st t, P st → P (fitStep settings idGen st t)) :
    ∀ (l : List GoogleTask) (st : FitState),
      P st → P (l.foldl (fitStep settings idGen) st) := by
  intro l
  induction l with
  | nil => intro st h; exact h
  | cons t ts ih => intro st h; exact ih _ (hstep st t h)

/-- Binary relations preserved by parallel placement steps hold after
parallel placement loops. -/
theorem foldl_fitStep_rel (settings : UserSettings) (g1 g2 : ℕ → String)
    (R : FitState → FitState → Prop)
    (hstep : ∀ st1 st2 t, R st1 st2 → R (fitStep settings g1 st1 t) (fitStep settings g2 st2 t)) :
    ∀ (l : List GoogleTask) (st1 st2 : FitState),
      R st1 st2 → R (l.foldl (fitStep settings g1) st1) (l.foldl (fitStep settings g2) st2) := by
  intro l
  induction l with
  | nil => intro st1 st2 h; exact h
  | cons t ts ih => intro st1 st2 h; exact ih _ _ (hstep st1 st2 t h)

/-- Containment of slots is transitive. -/
theorem slotWithin_trans {t u s : TimeSlot} (h1 : slotWithin t u) (h2 : slotWithin u s) :
    slotWithin t s :=
  ⟨le_trans h2.1 h1.1, le_trans h1.2 h2.2⟩

/-- Shifting a parsed wall time by its time-of-day components relative to
midnight of the same date. -/
theorem parseTimeToDate_shift (date : CivilDate) (time : TimeOfDay) (timezoneOffset : ℤ) :
    _parseTimeToDate date time timezoneOffset
      = _parseTimeToDate date ⟨0, 0⟩ timezoneOffset + time.hh * 3600000 + time.mm * 60000 := by
  unfold _parseTimeToDate dateUTC
  ring

/-- A positively-guarded optional slot equals its payload when it is the
found member. -/
theorem optSlot_eq {a b : ℤ} {t : TimeSlot}
    (heq : (if a < b then some (⟨a, b⟩ : TimeSlot) else none) = some t) :
    t = ⟨a, b⟩ ∧ a < b := by
  split_ifs at heq with h
  exact ⟨(Option.some_injective _ heq).symm, h⟩

/-- Working-hour slots of ranges whose start has nonnegative components
start no earlier than local midnight of the requested date. -/
theorem workingHourSlots_start_ge {settings : UserSettings} {date : CivilDate}
    {timezoneOffset : ℤ}
    (hwh : ∀ h ∈ settings.workingHours, 0 ≤ h.start.hh ∧ 0 ≤ h.start.mm)
    {t : TimeSlot} (ht : t ∈ workingHourSlots settings date timezoneOffset) :
    _parseTimeToDate date ⟨0, 0⟩ timezoneOffset ≤ t.start := by
  unfold workingHourSlots at ht
  simp only [List.mem_filterMap] at ht
  obtain ⟨hours, hmem, heq⟩ := ht
  obtain ⟨hhh, hmm⟩ := hwh hours hmem
  have hshift := parseTimeToDate_shift date hours.start timezoneOffset
  obtain ⟨rfl, hlt⟩ := optSlot_eq heq
  simp only []
  split_ifs with hclamp <;> omega

/-- Decomposition of a slot surviving `_calculateAvailableSlots`: it has
positive width, lies inside some working-hour slot, avoids every blocked
time, and (when the requested date is today) avoids the interval from local
midnight to the rounded-up current instant. -/
theorem mem_calculateAvailableSlots {events : List GoogleCalendarEvent}
    {placements : List TaskPlacement} {settings : UserSettings} {date : CivilDate}
    {timezoneOffset now : ℤ} {t : TimeSlot}
    (ht : t ∈ _calculateAvailableSlots events placements settings date timezoneOffset now) :
    t.start < t.stop
    ∧ (∃ s0 ∈ workingHourSlots settings date timezoneOffset, slotWithin t s0)
    ∧ (∀ b ∈ _getBlockedTimes events placements settings.minTimeBetweenTasks,
        intervalsDisjoint t.start t.stop b.start b.stop)
    ∧ (date = todayInZone now timezoneOffset →
        intervalsDisjoint t.start t.stop
          (_parseTimeToDate date ⟨0, 0⟩ timezoneOffset) (_roundUpToNextSlot now)) := by
  unfold _calculateAvailableSlots at ht
  rw [List.mem_filter] at ht
  obtain ⟨htf, hpos⟩ := ht
  have hpos' : t.start < t.stop := by simpa using hpos
  refine ⟨hpos', ?_, ?_, ?_⟩
  · obtain ⟨u, hu, htu⟩ := mem_foldl_subtract htf
    by_cases hd : date = todayInZone now timezoneOffset
    · rw [if_pos hd] at hu
      obtain ⟨s0, hs0, hus0⟩ := mem_subtract hu
      exact ⟨s0, hs0, slotWithin_trans htu (mem_subtractOne_subset hus0)⟩
    · rw [if_neg hd] at hu
      exact ⟨u, hu, htu⟩
  · intro b hb
    exact mem_foldl_subtract_disjoint hb htf
  · intro hd
    obtain ⟨u, hu, htu⟩ := mem_foldl_subtract htf
    rw [if_pos hd] at hu
    obtain ⟨s0, hs0, hus0⟩ := mem_subtract hu
    exact slotWithin_disjoint htu (mem_subtractOne_disjoint hus0)

/-- Each placement step preserves the placement invariant. -/
theorem fitStep_placementInv (settings : UserSettings) (idGen : ℕ → String)
    (blocked : List TimeSlot) (st : FitState) (task : GoogleTask)
    (h : placementInv settings blocked st) :
    placementInv settings blocked (fitStep settings idGen st task) := by
  unfold fitStep
  split_ifs with hc
  · exact h
  · cases hfind : _findFirstAvailableSlot st.availableSlots settings.defaultTaskDuration with
    | none => exact ⟨h.1, h.2.1, h.2.2.1, h.2.2.2⟩
    | some slot =>
        obtain ⟨s, hs, hrs, hrstop, hwide⟩ := findFirst_some hfind
        simp only [hfind]
        obtain ⟨h1, h2, h3, h4⟩ := h
        refine ⟨?_, ?_, ?_, ?_⟩
        · intro s' hs' b hb
          obtain ⟨u, hu, hs'u⟩ := mem_subtract hs'
          exact slotWithin_disjoint (mem_subtractOne_subset hs'u) (h1 u hu b hb)
        · intro s' hs' p hp
          simp only [List.mem_append, List.mem_singleton] at hp
          rcases hp with hp | rfl
          · obtain ⟨u, hu, hs'u⟩ := mem_subtract hs'
            exact slotWithin_disjoint (mem_subtractOne_subset hs'u) (h2 u hu p hp)
          · obtain ⟨u, hu, hs'u⟩ := mem_subtract hs'
            have hdis := mem_subtractOne_disjoint hs'u
            have hsub := mem_subtractOne_subset hs'u
            intro x hx1 hx2 hx3 hx4
            exact hdis x hx1 hx2 (by simp only [] at hx3 ⊢; omega)
              (by simp only [] at hx4 ⊢; omega)
        · rw [List.pairwise_append]
          refine ⟨h3, List.pairwise_singleton _ _, ?_⟩
          intro p hp q hq
          simp only [List.mem_singleton] at hq
          subst hq
          intro x hx1 hx2 hx3 hx4
          simp only [] at hx1 hx2
          exact h2 s hs p hp x (by omega) (by omega) hx3 hx4
        · intro p hp b hb
          simp only [List.mem_append, List.mem_singleton] at hp
          rcases hp with hp | rfl
          · exact h4 p hp b hb
          · intro x hx1 hx2 hx3 hx4
            simp only [] at hx1 hx2
            exact h1 s hs b hb x (by omega) (by omega) hx3 hx4

/-- Each placement step preserves the duplicate-handling invariant. -/
theorem fitStep_dedupInv (settings : UserSettings) (idGen : ℕ → String)
    (st : FitState) (task : GoogleTask) (h : dedupInv settings st) :
    dedupInv settings (fitStep settings idGen st task) := by
  obtain ⟨h1, h2, h3, h4⟩ := h
  unfold fitStep
  split_ifs with hc
  · exact ⟨h1, h2, h3, h4⟩
  · have hcmem : task.id ∉ st.placedTaskIds := by simpa using hc
    cases hfind : _findFirstAvailableSlot st.availableSlots settings.defaultTaskDuration with
    | none =>
        refine ⟨h1, h2, ?_, fun _ => hfind⟩
        intro t htmem
        simp only [List.mem_append, List.mem_singleton] at htmem
        rcases htmem with htmem | rfl
        · exact h3 t htmem
        · rw [← h1]
          exact hcmem
    | some slot =>
        have hempty : st.unplacedTasks = [] := by
          by_contra hne
          rw [h4 hne] at hfind
          exact absurd hfind (by simp)
        simp only [hfind]
        refine ⟨?_, ?_, ?_, ?_⟩
        · rw [List.map_append, ← h1]
          rfl
        · rw [List.map_append]
          have : task.id ∉ st.placements.map TaskPlacement.taskId := h1 ▸ hcmem
          simp [List.nodup_append, h2, this]
        · intro t htmem
          simp only [hempty, List.not_mem_nil] at htmem
        · intro hne
          simp only [hempty] at hne
          exact absurd rfl hne

/-- Parallel placement steps under different id-generation environments
preserve agreement up to placement ids. -/
theorem fitStep_erasedEq (settings : UserSettings) (g1 g2 : ℕ → String)
    (st1 st2 : FitState) (task : GoogleTask) (h : erasedEq st1 st2) :
    erasedEq (fitStep settings g1 st1 task) (fitStep settings g2 st2 task) := by
  obtain ⟨h1, h2, h3, h4⟩ := h
  unfold fitStep
  rw [h1, h4]
  split_ifs with hc
  · exact ⟨h1, h2, h3, h4⟩
  · cases hfind : _findFirstAvailableSlot st2.availableSlots settings.defaultTaskDuration with
    | none => exact ⟨rfl, h2, by rw [h3], rfl⟩
    | some slot =>
        refine ⟨rfl, ?_, h3, rfl⟩
        rw [List.map_append, List.map_append, h2]
        rfl

/-- The summary message depends on the placements only through their
number. -/
theorem generateResultMessage_congr {p1 p2 : List TaskPlacement}
    {u : List GoogleTask} (hlen : p1.length = p2.length) :
    _generateResultMessage p1 u = _generateResultMessage p2 u := by
  unfold _generateResultMessage
  rw [hlen]

/-- The bounded minute search fails exactly when no minute in the searched
window is valid. -/
theorem firstValidFrom_none_iff (isValid : ℤ → Bool) (base : ℤ) :
    ∀ (r m : ℕ), firstValidFrom isValid base m r = none
      ↔ ∀ n : ℤ, (m : ℤ) ≤ n → n < (m : ℤ) + (r : ℤ) → isValid (base + n) = false := by
  intro r
  induction r with
  | zero =>
      intro m
      simp only [firstValidFrom, Nat.cast_zero, add_zero, true_iff]
      intro n h1 h2
      omega
  | succ r ih =>
      intro m
      unfold firstValidFrom
      split_ifs with hv
      · constructor
        · intro h
          exact absurd h (by simp)
        · intro hall
          have := hall (m : ℤ) (le_refl _) (by push_cast; omega)
          rw [this] at hv
          exact absurd hv (by simp)
      · rw [ih (m + 1)]
        constructor
        · intro hall n h1 h2
          rcases eq_or_lt_of_le h1 with rfl | hlt
          · simpa using hv
          · exact hall n (by push_cast; omega) (by push_cast at h2 ⊢; omega)
        · intro hall n h1 h2
          exact hall n (by push_cast at h1; omega) (by push_cast at h2 ⊢; omega)

/-- A successful bounded minute search returns the first valid minute in
the searched window. -/
theorem firstValidFrom_some (isValid : ℤ → Bool) (base : ℤ) :
    ∀ (r m : ℕ) (c : ℤ), firstValidFrom isValid base m r = some c →
      ∃ n : ℤ, (m : ℤ) ≤ n ∧ n < (m : ℤ) + (r : ℤ) ∧ c = base + n ∧ isValid c = true
        ∧ ∀ j : ℤ, (m : ℤ) ≤ j → j < n → isValid (base + j) = false := by
  intro r
  induction r with
  | zero => intro m c h; simp [firstValidFrom] at h
  | succ r ih =>
      intro m c h
      unfold firstValidFrom at h
      split_ifs at h with hv
      · obtain rfl := Option.some_injective _ h
        refine ⟨(m : ℤ), le_refl _, by push_cast; omega, rfl, hv, ?_⟩
        intro j h1 h2
        omega
      · obtain ⟨n, h1, h2, h3, h4, h5⟩ := ih (m + 1) c h
        refine ⟨n, by push_cast at h1; omega, by push_cast at h2 ⊢; omega, h3, h4, ?_⟩
        intro j hj1 hj2
        rcases eq_or_lt_of_le hj1 with rfl | hlt
        · simpa using hv
        · exact h5 j (by push_cast; omega) hj2

/-- C1 (amended): in every `autoFitTasks` result, a placement placed later
never overlaps an earlier-placed placement even when the earlier one is
extended by `minTimeBetweenTasks` after its end, and no placement overlaps
any busy interval derived from existing events or existing placements
(already expanded by `minTimeBetweenTasks` on both sides).  The trailing
gap is enforced in placement order only: a later-placed placement may end
arbitrarily close before the start of an earlier-placed one. -/
theorem claim_C1_no_overlap (tasks : List GoogleTask)
    (existingEvents : List GoogleCalendarEvent)
    (existingPlacements : List TaskPlacement) (settings : UserSettings)
    (date : CivilDate) (timezoneOffset now : ℤ) (idGen : ℕ → String) :
    List.Pairwise (fun p q : TaskPlacement =>
        intervalsDisjoint q.startTime (q.startTime + q.duration * 60000)
          p.startTime (p.startTime + p.duration * 60000
            + settings.minTimeBetweenTasks * 60000))
      (autoFitTasks tasks existingEvents existingPlacements settings date
        timezoneOffset now idGen).placements
    ∧ ∀ p ∈ (autoFitTasks tasks existingEvents existingPlacements settings date
        timezoneOffset now idGen).placements,
        ∀ b ∈ _getBlockedTimes existingEvents existingPlacements
            settings.minTimeBetweenTasks,
          intervalsDisjoint p.startTime (p.startTime + p.duration * 60000)
            b.start b.stop := by
  have hinit : placementInv settings
      (_getBlockedTimes existingEvents existingPlacements settings.minTimeBetweenTasks)
      ⟨_calculateAvailableSlots existingEvents existingPlacements settings date
          timezoneOffset now, [], [], [], 0⟩ := by
    refine ⟨?_, ?_, List.Pairwise.nil, ?_⟩
    · intro s hs b hb
      exact (mem_calculateAvailableSlots hs).2.2.1 b hb
    · intro s hs p hp
      simp at hp
    · intro p hp
      simp at hp
  have hinv := foldl_fitStep_inv settings idGen
    (placementInv settings
      (_getBlockedTimes existingEvents existingPlacements settings.minTimeBetweenTasks))
    (fun st t h => fitStep_placementInv settings idGen _ st t h)
    (_sortTasksByPriority
      (if settings.ignoreContainerTasks then tasks.filter (fun t => !t.hasSubtasks)
        else tasks))
    _ hinit
  simp only [autoFitTasks]
  exact ⟨hinv.2.2.1, hinv.2.2.2⟩

/-- C1 (counterexample): with working hours listed as 10:00-10:45 then
9:30-10:00, two tasks are placed at 10:00 and 9:30; the second-placed
interval ends exactly where the first starts, so the symmetric 15-minute
separation demanded by the claim fails. -/
theorem claim_C1_counterexample :
    exResultBackward.placements.map TaskPlacement.startTime
      = [_parseTimeToDate exDate ⟨10, 0⟩ 0, _parseTimeToDate exDate ⟨9, 30⟩ 0]
    ∧ ¬ minGapRespected 30 15 exResultBackward.placements := by
  refine ⟨by decide, ?_⟩
  unfold minGapRespected
  decide

/-- Witness for C1: the amended no-overlap theorem instantiated at the
backward working-hours scenario. -/
theorem claim_C1_witness :
    List.Pairwise (fun p q : TaskPlacement =>
        intervalsDisjoint q.startTime (q.startTime + q.duration * 60000)
          p.startTime (p.startTime + p.duration * 60000
            + exSettingsBackward.minTimeBetweenTasks * 60000))
      (autoFitTasks [mkTask "a", mkTask "b"] [] [] exSettingsBackward exDate 0
        exNowOtherDay exIdGen).placements
    ∧ ∀ p ∈ (autoFitTasks [mkTask "a", mkTask "b"] [] [] exSettingsBackward exDate 0
        exNowOtherDay exIdGen).placements,
        ∀ b ∈ _getBlockedTimes [] [] exSettingsBackward.minTimeBetweenTasks,
          intervalsDisjoint p.startTime (p.startTime + p.duration * 60000)
            b.start b.stop :=
  claim_C1_no_overlap [mkTask "a", mkTask "b"] [] [] exSettingsBackward exDate 0
    exNowOtherDay exIdGen

/-- C2 (counterexample): on the spec's concrete scenario the engine
produces 4 placements, not 2. -/
theorem claim_C2_counterexample :
    exResultScenario.placements.length = 4
    ∧ exResultScenario.placements.length ≠ 2 := by
  decide

/-- C2 (amended): with working hours 10:00-12:45, visible range
06:00-22:00, no existing events or placements, 10 undated tasks,
30-minute duration and 15-minute gap on a non-today date, the engine
returns exactly 4 placements starting 10:00, 10:45, 11:30 and 12:15
local time, each 30 minutes, and exactly 6 unplaced tasks. -/
theorem claim_C2_scenario :
    exResultScenario.placements.map TaskPlacement.startTime
      = [_parseTimeToDate exDate ⟨10, 0⟩ 0, _parseTimeToDate exDate ⟨10, 45⟩ 0,
         _parseTimeToDate exDate ⟨11, 30⟩ 0, _parseTimeToDate exDate ⟨12, 15⟩ 0]
    ∧ exResultScenario.placements.map TaskPlacement.duration = [30, 30, 30, 30]
    ∧ exResultScenario.unplacedTasks.map GoogleTask.id
      = ["t5", "t6", "t7", "t8", "t9", "t10"]
    ∧ exResultScenario.message = "Placed 4 task(s). 6 task(s) could not fit." := by
  decide

/-- C3: the placement order puts dated tasks before undated ones and
earlier due dates first (`List.Pairwise priorityRel`), keeps the undated
tasks in their input order (stable, no secondary key), and sorts the
spec's example `[A(due=200), B(due=100), C(no due)]` to `[B, A, C]`. -/
theorem claim_C3_sort_priority :
    (∀ tasks : List GoogleTask,
        List.Pairwise priorityRel (_sortTasksByPriority tasks)
        ∧ (_sortTasksByPriority tasks).filter (fun t => t.due.isNone)
            = tasks.filter (fun t => t.due.isNone))
    ∧ _sortTasksByPriority
        [⟨"A", "A", some 200, false⟩, ⟨"B", "B", some 100, false⟩,
         ⟨"C", "C", none, false⟩]
      = [⟨"B", "B", some 100, false⟩, ⟨"A", "A", some 200, false⟩,
         ⟨"C", "C", none, false⟩] := by
  refine ⟨fun tasks => ⟨pairwise_sortTasksByPriority tasks, sortTasks_filter_undated tasks⟩, ?_⟩
  decide

/-- C4: subtracting the same busy interval from a slot list twice yields
exactly the slot list obtained by subtracting it once, for every slot list
and every pair of block bounds. -/
theorem claim_C4_subtract_idempotent (slots : List TimeSlot) (blockStart blockEnd : ℤ) :
    _subtractTimeFromSlots (_subtractTimeFromSlots slots blockStart blockEnd)
        blockStart blockEnd
      = _subtractTimeFromSlots slots blockStart blockEnd :=
  subtract_idem slots blockStart blockEnd

/-- C5 (counterexample): subtracting the backward pair
`blockStart = 7, blockEnd = 3` from the well-formed slot list `[[0,10)]`
yields `[[0,7), [3,10)]`, which overlaps, so the invariant is not
preserved for arbitrary block bounds. -/
theorem claim_C5_counterexample :
    slotsWellFormed [(⟨0, 10⟩ : TimeSlot)]
    ∧ ¬ slotsWellFormed (_subtractTimeFromSlots [(⟨0, 10⟩ : TimeSlot)] 7 3) := by
  unfold slotsWellFormed
  decide

/-- C5 (amended): for a forward-ordered busy interval
(`blockStart ≤ blockEnd`), subtraction preserves the slot-list invariant:
sorted by start, non-overlapping, and every slot of positive width. -/
theorem claim_C5_invariant_preserved (blockStart blockEnd : ℤ)
    (hbe : blockStart ≤ blockEnd) (slots : List TimeSlot)
    (h : slotsWellFormed slots) :
    slotsWellFormed (_subtractTimeFromSlots slots blockStart blockEnd) :=
  subtract_wellFormed hbe h

/-- Witness for C5: the amended preservation theorem at the forward
interval `[3, 7)` subtracted from `[[0, 10)]`. -/
theorem claim_C5_witness :
    ((3 : ℤ) ≤ 7 ∧ slotsWellFormed [(⟨0, 10⟩ : TimeSlot)])
    ∧ slotsWellFormed (_subtractTimeFromSlots [(⟨0, 10⟩ : TimeSlot)] 3 7) :=
  ⟨⟨by norm_num, by unfold slotsWellFormed; decide⟩,
   claim_C5_invariant_preserved 3 7 (by norm_num) _ (by unfold slotsWellFormed; decide)⟩

/-- C6: when the requested date equals "today" computed from the current
instant in the user's zone, every slot returned by the available-slot
computation starts at or after the current instant rounded up to the next
scheduling-interval boundary.  The working-hours starts are assumed to
have nonnegative `"HH:MM"` components, as any well-formed time string
has. -/
theorem claim_C6_past_time_excluded (events : List GoogleCalendarEvent)
    (placements : List TaskPlacement) (settings : UserSettings)
    (date : CivilDate) (timezoneOffset now : ℤ)
    (hwh : ∀ h ∈ settings.workingHours, 0 ≤ h.start.hh ∧ 0 ≤ h.start.mm)
    (htoday : date = todayInZone now timezoneOffset) :
    ∀ s ∈ _calculateAvailableSlots events placements settings date timezoneOffset now,
      _roundUpToNextSlot now ≤ s.start := by
  intro s hs
  obtain ⟨hpos, ⟨s0, hs0, hws0⟩, -, hdisj⟩ := mem_calculateAvailableSlots hs
  have hday := workingHourSlots_start_ge hwh hs0
  have hstart : _parseTimeToDate date ⟨0, 0⟩ timezoneOffset ≤ s.start :=
    le_trans hday hws0.1
  by_contra hlt
  push_neg at hlt
  exact hdisj htoday s.start (le_refl _) hpos hstart hlt

/-- Witness for C6: with a 14:10 current instant on the requested date
itself and working hours 10:00-22:00, every computed slot starts at or
after the 14:15 rounding boundary. -/
theorem claim_C6_witness :
    ((∀ h ∈ exSettingsWide.workingHours, 0 ≤ h.start.hh ∧ 0 ≤ h.start.mm)
      ∧ exDate = todayInZone exNowToday 0
      ∧ _roundUpToNextSlot exNowToday = _parseTimeToDate exDate ⟨14, 15⟩ 0)
    ∧ ∀ s ∈ _calculateAvailableSlots [] [] exSettingsWide exDate 0 exNowToday,
        _roundUpToNextSlot exNowToday ≤ s.start :=
  ⟨⟨by decide, by decide, by decide⟩,
   claim_C6_past_time_excluded [] [] exSettingsWide exDate 0 exNowToday
     (by decide) (by decide)⟩

/-- C7: the DST-gap coercion returns the input wall time when it is valid;
otherwise it tries successive one-minute increments and returns the first
valid one, raising `InvalidWallTime` exactly when no wall time within 180
minutes after the input is valid.  The embedded search is a total
function, so it terminates on every input. -/
theorem claim_C7_dst_gap_coercion (isValid : ℤ → Bool) (dt : ℤ) :
    (coerceDateTimeToValidWallTime isValid dt = Except.error "InvalidWallTime"
      ↔ isValid dt = false ∧ ∀ n : ℤ, 1 ≤ n → n ≤ 180 → isValid (dt + n) = false)
    ∧ (∀ c : ℤ, coerceDateTimeToValidWallTime isValid dt = Except.ok c →
        (isValid dt = true ∧ c = dt)
        ∨ (isValid dt = false ∧ ∃ n : ℤ, 1 ≤ n ∧ n ≤ 180 ∧ c = dt + n
            ∧ isValid c = true
            ∧ ∀ j : ℤ, 1 ≤ j → j < n → isValid (dt + j) = false)) := by
  unfold coerceDateTimeToValidWallTime
  split_ifs with hv
  · constructor
    · constructor
      · intro h
        exact absurd h (by simp)
      · rintro ⟨hf, -⟩
        rw [hv] at hf
        exact absurd hf (by simp)
    · intro c hc
      injection hc with hc
      exact Or.inl ⟨hv, hc.symm⟩
  · have hvf : isValid dt = false := by simpa using hv
    cases hf : firstValidFrom isValid dt 1 MAX_DST_COERCE_MINUTES with
    | none =>
        have hnone := (firstValidFrom_none_iff isValid dt MAX_DST_COERCE_MINUTES 1).mp hf
        constructor
        · simp only [hf]
          constructor
          · intro _
            refine ⟨hvf, ?_⟩
            intro n h1 h2
            exact hnone n (by exact_mod_cast h1)
              (by simp only [MAX_DST_COERCE_MINUTES]; push_cast; omega)
          · intro _
            trivial
        · intro c hc
          simp only [hf] at hc
          exact absurd hc (by simp)
    | some cand =>
        obtain ⟨n, h1, h2, h3, h4, h5⟩ :=
          firstValidFrom_some isValid dt MAX_DST_COERCE_MINUTES 1 cand hf
        have h1' : (1 : ℤ) ≤ n := by exact_mod_cast h1
        have h2' : n ≤ 180 := by
          simp only [MAX_DST_COERCE_MINUTES] at h2
          push_cast at h2
          omega
        constructor
        · simp only [hf]
          constructor
          · intro h
            exact absurd h (by simp)
          · rintro ⟨-, hall⟩
            have hfalse := hall n h1' h2'
            rw [← h3] at hfalse
            rw [hfalse] at h4
            exact absurd h4 (by simp)
        · intro c hc
          simp only [hf] at hc
          injection hc with hc
          subst hc
          refine Or.inr ⟨hvf, n, h1', h2', h3, h4, ?_⟩
          intro j hj1 hj2
          exact h5 j (by exact_mod_cast hj1) hj2

/-- Witness for C7: under a validity predicate whose gap covers wall
minutes below 123, coercing wall minute 120 returns wall minute 123, the
first valid candidate. -/
theorem claim_C7_witness :
    coerceDateTimeToValidWallTime gapValidity 120 = Except.ok 123
    ∧ ((gapValidity 120 = true ∧ (123 : ℤ) = 120)
      ∨ (gapValidity 120 = false ∧ ∃ n : ℤ, 1 ≤ n ∧ n ≤ 180 ∧ (123 : ℤ) = 120 + n
          ∧ gapValidity 123 = true
          ∧ ∀ j : ℤ, 1 ≤ j → j < n → gapValidity (120 + j) = false)) :=
  ⟨by rfl, (claim_C7_dst_gap_coercion gapValidity 120).2 123 (by rfl)⟩

/-- C8 (counterexample): with the non-positive required settings field
`defaultTaskDuration = 0`, the engine does not fail: it returns a normal
`AutoFitResult` that even contains a placement. -/
theorem claim_C8_counterexample :
    exSettingsZeroDuration.defaultTaskDuration ≤ 0
    ∧ exResultZeroDuration.placements.length = 1
    ∧ exResultZeroDuration.message = "Successfully placed 1 task(s)." := by
  decide

/-- C8 (amended): the engine performs no validation of its settings: with
`defaultTaskDuration = 0` it still returns a complete `AutoFitResult`,
placing the task at the start of the first working-hours slot with a
zero-minute duration and reporting success.  (`parseISODateInZone` in the
timezone layer does throw on unparseable ISO dates, but `autoFitTasks`
never calls it.) -/
theorem claim_C8_no_validation :
    exResultZeroDuration.placements.map (fun p => (p.taskId, p.startTime, p.duration))
      = [("t1", _parseTimeToDate exDate ⟨10, 0⟩ 0, 0)]
    ∧ exResultZeroDuration.unplacedTasks = [] := by
  decide

/-- C9 (counterexample): two invocations with identical tasks, events,
placements, settings, date, offset and current instant but different
`Date.now()`/`Math.random()` draws return different results: the
placement ids differ. -/
theorem claim_C9_counterexample :
    autoFitTasks [mkTask "a"] [] [] exSettingsOneHour exDate 0 exNowOtherDay
        (fun _ => "r1")
      ≠ autoFitTasks [mkTask "a"] [] [] exSettingsOneHour exDate 0 exNowOtherDay
        (fun _ => "r2") := by
  decide

/-- C9 (amended): the engine is deterministic up to the generated
placement ids: two invocations with identical inputs and the same current
instant agree on every placement field except `id`, on the unplaced
tasks, and on the summary message, whatever the id-generation draws
are. -/
theorem claim_C9_deterministic_up_to_ids (tasks : List GoogleTask)
    (existingEvents : List GoogleCalendarEvent)
    (existingPlacements : List TaskPlacement) (settings : UserSettings)
    (date : CivilDate) (timezoneOffset now : ℤ) (g1 g2 : ℕ → String) :
    (autoFitTasks tasks existingEvents existingPlacements settings date
        timezoneOffset now g1).placements.map erasePlacementId
      = (autoFitTasks tasks existingEvents existingPlacements settings date
        timezoneOffset now g2).placements.map erasePlacementId
    ∧ (autoFitTasks tasks existingEvents existingPlacements settings date
        timezoneOffset now g1).unplacedTasks
      = (autoFitTasks tasks existingEvents existingPlacements settings date
        timezoneOffset now g2).unplacedTasks
    ∧ (autoFitTasks tasks existingEvents existingPlacements settings date
        timezoneOffset now g1).message
      = (autoFitTasks tasks existingEvents existingPlacements settings date
        timezoneOffset now g2).message := by
  have hrel := foldl_fitStep_rel settings g1 g2 erasedEq
    (fun st1 st2 t h => fitStep_erasedEq settings g1 g2 st1 st2 t h)
    (_sortTasksByPriority
      (if settings.ignoreContainerTasks then tasks.filter (fun t => !t.hasSubtasks)
        else tasks))
    ⟨_calculateAvailableSlots existingEvents existingPlacements settings date
        timezoneOffset now, [], [], [], 0⟩
    ⟨_calculateAvailableSlots existingEvents existingPlacements settings date
        timezoneOffset now, [], [], [], 0⟩
    ⟨rfl, rfl, rfl, rfl⟩
  obtain ⟨h1, h2, h3, h4⟩ := hrel
  have hlen := congrArg List.length h2
  simp only [List.length_map] at hlen
  simp only [autoFitTasks]
  refine ⟨h2, h3, ?_⟩
  calc _generateResultMessage
        ((_sortTasksByPriority
          (if settings.ignoreContainerTasks then tasks.filter (fun t => !t.hasSubtasks)
            else tasks)).foldl (fitStep settings g1)
          ⟨_calculateAvailableSlots existingEvents existingPlacements settings date
              timezoneOffset now, [], [], [], 0⟩).placements
        ((_sortTasksByPriority
          (if settings.ignoreContainerTasks then tasks.filter (fun t => !t.hasSubtasks)
            else tasks)).foldl (fitStep settings g1)
          ⟨_calculateAvailableSlots existingEvents existingPlacements settings date
              timezoneOffset now, [], [], [], 0⟩).unplacedTasks
      = _generateResultMessage
        ((_sortTasksByPriority
          (if settings.ignoreContainerTasks then tasks.filter (fun t => !t.hasSubtasks)
            else tasks)).foldl (fitStep settings g2)
          ⟨_calculateAvailableSlots existingEvents existingPlacements settings date
              timezoneOffset now, [], [], [], 0⟩).placements
        ((_sortTasksByPriority
          (if settings.ignoreContainerTasks then tasks.filter (fun t => !t.hasSubtasks)
            else tasks)).foldl (fitStep settings g1)
          ⟨_calculateAvailableSlots existingEvents existingPlacements settings date
              timezoneOffset now, [], [], [], 0⟩).unplacedTasks :=
        generateResultMessage_congr hlen
    _ = _ := by rw [h3]

/-- C10: in every `autoFitTasks` result the placements carry pairwise
distinct task ids, and no unplaced task's id equals a placed task's id:
after a task id is placed, later duplicates are skipped entirely. -/
theorem claim_C10_duplicate_ids (tasks : List GoogleTask)
    (existingEvents : List GoogleCalendarEvent)
    (existingPlacements : List TaskPlacement) (settings : UserSettings)
    (date : CivilDate) (timezoneOffset now : ℤ) (idGen : ℕ → String) :
    ((autoFitTasks tasks existingEvents existingPlacements settings date
        timezoneOffset now idGen).placements.map TaskPlacement.taskId).Nodup
    ∧ ∀ t ∈ (autoFitTasks tasks existingEvents existingPlacements settings date
        timezoneOffset now idGen).unplacedTasks,
        t.id ∉ (autoFitTasks tasks existingEvents existingPlacements settings date
          timezoneOffset now idGen).placements.map TaskPlacement.taskId := by
  have hinit : dedupInv settings
      ⟨_calculateAvailableSlots existingEvents existingPlacements settings date
          timezoneOffset now, [], [], [], 0⟩ := by
    refine ⟨rfl, List.nodup_nil, ?_, ?_⟩
    · intro t ht
      simp at ht
    · intro h
      exact absurd rfl h
  have hinv := foldl_fitStep_inv settings idGen (dedupInv settings)
    (fun st t h => fitStep_dedupInv settings idGen st t h)
    (_sortTasksByPriority
      (if settings.ignoreContainerTasks then tasks.filter (fun t => !t.hasSubtasks)
        else tasks))
    _ hinit
  simp only [autoFitTasks]
  exact ⟨hinv.2.1, hinv.2.2.1⟩

/-- Witness for C10: the duplicate-id theorem instantiated at an input
containing the same task id twice. -/
theorem claim_C10_witness :
    ((autoFitTasks [mkTask "a", mkTask "a"] [] [] exSettingsOneHour exDate 0
        exNowOtherDay exIdGen).placements.map TaskPlacement.taskId).Nodup
    ∧ ∀ t ∈ (autoFitTasks [mkTask "a", mkTask "a"] [] [] exSettingsOneHour exDate 0
        exNowOtherDay exIdGen).unplacedTasks,
        t.id ∉ (autoFitTasks [mkTask "a", mkTask "a"] [] [] exSettingsOneHour exDate 0
          exNowOtherDay exIdGen).placements.map TaskPlacement.taskId :=
  claim_C10_duplicate_ids [mkTask "a", mkTask "a"] [] [] exSettingsOneHour exDate 0
    exNowOtherDay exIdGen
